import Mathlib

/-!
Verification of the gnosys-strata connection/catalog subsystem.

This file gives a shallow embedding of the pure decision logic of
`src/strata/config.py` (server/Set registry), `src/strata/utils/catalog.py`
(tool catalog), and the dispatcher paths of `src/strata/tools.py` and
`src/strata/treeshell_functions.py` (execute / get_action_details /
manage_servers populate_catalog), and proves the frozen behavioural claims
about them.

Modelling conventions:
 - Python dicts are insertion-ordered association lists; `d[k] = v` replaces
   the value of an existing key in place and otherwise appends.
 - `MCPClientManager` (not part of the inspected sources) is modelled from
   the spec, section 4.2: its `active_clients` is a live-session registry
   (a set of server names), `get_client(name)` raises KeyError exactly when
   `name` has no live session, `_connect_server` inserts the name into the
   live registry on success and leaves it absent on handshake failure, and
   `_disconnect_server` removes the name (a no-op when absent).
 - The external `json.loads` and the remote `list_tools`/`call_tool` are
   oracles (function-valued environment fields); the embedding's control
   flow around them is taken verbatim from the sources.
 - Delegation to a bound client's `call_tool(action, params)` is represented
   by the result constructor `ExecOut.call action params`: the claims under
   study only concern whether, and with which arguments, the remote call is
   issued.
-/

namespace StrataSpec

/-- Model of a Python dict assignment `d[k] = v` on an insertion-ordered
association list: replace the value at an existing key in place, otherwise
append the new binding at the end. -/
def dictInsert {α : Type} : List (String × α) → String → α → List (String × α)
  | [], k, v => [(k, v)]
  | p :: rest, k, v => if p.1 == k then (k, v) :: rest else p :: dictInsert rest k v

/-- Model of Python `dict.update(m)`: insert every binding of `m` in order. -/
def dictUpdate {α : Type} (d m : List (String × α)) : List (String × α) :=
  m.foldl (fun acc kv => dictInsert acc kv.1 kv.2) d

/-- The string `"{}"` (written with escapes so braces stay literal). -/
def emptyObjStr : String := "\x7b\x7d"

/-- src/strata/config.py, class MCPServerConfig. -/
structure MCPServerConfig where
  name : String
  type : String := "stdio"
  command : String := ""
  args : List String := []
  env : List (String × String) := []
  url : Option String := none
  headers : List (String × String) := []
  auth : Option String := none
  enabled : Bool := true
deriving DecidableEq

/-- A stored Set in `MCPServerList.sets`: either a legacy bare list of server
names, or a dict with description / servers / include_sets (an absent
`include_sets` key is the empty list, matching `s.get("include_sets", [])`). -/
inductive SetVal where
  | legacy (servers : List String)
  | obj (description : String) (servers : List String) (includeSets : List String)
deriving DecidableEq

/-- src/strata/config.py, class MCPServerList: the in-memory registry state
(`self.servers` and `self.sets`, both Python dicts keyed by name). -/
structure Registry where
  servers : List (String × MCPServerConfig)
  sets : List (String × SetVal)
deriving DecidableEq

/-- `MCPServerList.get_server`: `self.servers.get(name)`. -/
def get_server (reg : Registry) (name : String) : Option MCPServerConfig :=
  (reg.servers.find? (fun p => p.1 == name)).map (fun p => p.2)

/-- `MCPServerList.list_servers(enabled_only)`. -/
def list_servers (reg : Registry) (enabledOnly : Bool) : List MCPServerConfig :=
  let all := reg.servers.map (fun p => p.2)
  if enabledOnly then all.filter (fun s => s.enabled) else all

/-- `self.sets.get(name)`. -/
def lookupSet (sets : List (String × SetVal)) (name : String) : Option SetVal :=
  (sets.find? (fun p => p.1 == name)).map (fun p => p.2)

/-- The stored `servers` list of a Set value (the legacy bare list itself,
or the dict's `servers` entry). -/
def storedServers : SetVal → List String
  | SetVal.legacy l => l
  | SetVal.obj _ s _ => s

/-- The purge step of `MCPServerList.remove_server` on one Set value:
`s.remove(name)` / `s["servers"].remove(name)`, guarded by a membership
check.  Python `list.remove` deletes only the FIRST occurrence; `List.erase`
does the same and is a no-op when the name is absent, which matches the
guard. -/
def purgeName (name : String) : SetVal → SetVal
  | SetVal.legacy l => SetVal.legacy (l.erase name)
  | SetVal.obj d s i => SetVal.obj d (s.erase name) i

/-- src/strata/config.py lines 172-185, `MCPServerList.remove_server`:
delete the definition and purge the name from every Set's servers list,
returning whether anything was removed. -/
def remove_server (reg : Registry) (name : String) : Bool × Registry :=
  if (reg.servers.find? (fun p => p.1 == name)).isSome then
    (true,
      { servers := reg.servers.filter (fun p => !(p.1 == name)),
        sets := reg.sets.map (fun p => (p.1, purgeName name p.2)) })
  else (false, reg)

/-- The inner merge loop of `get_set`:
`for srv in included_servers: if srv not in servers: servers.append(srv)`.
(The guard `if included_servers:` skips empty lists, which merges nothing,
exactly as folding over the empty list does.) -/
def mergeNew (acc l : List String) : List String :=
  l.foldl (fun a srv => if srv ∈ a then a else a ++ [srv]) acc

/-- The two recursion shapes of `MCPServerList.get_set`: resolving one Set
name against the visited set, and folding the `include_sets` list while
threading the (shared, mutated-in-place) visited set and the accumulated
server list. -/
inductive SetQ where
  | resolve (name : String) (visited : List String)
  | fold (includes : List String) (acc : List String) (visited : List String)
deriving DecidableEq

/-- src/strata/config.py lines 241-262, `MCPServerList.get_set`, as a
fuel-indexed structural recursion (`none` means the fuel ran out; the
sufficiency theorem below shows `setFuel` never does).  The Python code
checks `name in _visited` first (a revisit contributes `[]` and leaves the
visited set unchanged), then adds `name` to `_visited`, then looks the Set
up; a legacy bare-list Set is returned as stored; an object Set starts from
a copy of its `servers` and merges each included Set's resolution in order,
passing the same visited set down. -/
def setRun (sets : List (String × SetVal)) : Nat → SetQ → Option (Option (List String) × List String)
  | 0, _ => none
  | fuel + 1, SetQ.resolve name visited =>
      if name ∈ visited then some (some [], visited)
      else
        match lookupSet sets name with
        | none => some (none, name :: visited)
        | some (SetVal.legacy l) => some (some l, name :: visited)
        | some (SetVal.obj _ _servers includes) =>
            setRun sets fuel (SetQ.fold includes _servers (name :: visited))
  | _ + 1, SetQ.fold [] acc visited => some (some acc, visited)
  | fuel + 1, SetQ.fold (inc :: rest) acc visited =>
      match setRun sets fuel (SetQ.resolve inc visited) with
      | none => none
      | some (some l, v2) => setRun sets fuel (SetQ.fold rest (mergeNew acc l) v2)
      | some (none, v2) => setRun sets fuel (SetQ.fold rest acc v2)

/-- The visited set a resolution state carries. -/
def qVisited : SetQ → List String
  | SetQ.resolve _ v => v
  | SetQ.fold _ _ v => v

/-- The accumulated server list a resolution state carries. -/
def qAcc : SetQ → List String
  | SetQ.resolve _ _ => []
  | SetQ.fold _ acc _ => acc

/-- Number of Set names (with multiplicity of storage) not yet visited. -/
def unvisitedCount (sets : List (String × SetVal)) (visited : List String) : Nat :=
  ((sets.map (fun p => p.1)).filter (fun n => !(decide (n ∈ visited)))).length

/-- Length of a Set value's `include_sets` list. -/
def inclLen : SetVal → Nat
  | SetVal.legacy _ => 0
  | SetVal.obj _ _ includes => includes.length

/-- The longest `include_sets` list stored in the registry. -/
def maxIncl (sets : List (String × SetVal)) : Nat :=
  sets.foldl (fun m p => max m (inclLen p.2)) 0

/-- Potential of a resolution state: strictly decreases along every
recursive call of `setRun`, so it bounds the fuel needed. -/
def phi (sets : List (String × SetVal)) : SetQ → Nat
  | SetQ.resolve _ visited => (maxIncl sets + 2) * unvisitedCount sets visited + 1
  | SetQ.fold l _ visited => (maxIncl sets + 2) * unvisitedCount sets visited + l.length + 1

/-- Fuel that is always sufficient for a full resolution from an empty
visited set (proved below). -/
def setFuel (sets : List (String × SetVal)) : Nat :=
  (maxIncl sets + 2) * (sets.length + 1) + 1

/-- `MCPServerList.get_set(name)` at top level (`_visited = set()`). -/
def get_set (sets : List (String × SetVal)) (name : String) : Option (List String) :=
  match setRun sets (setFuel sets) (SetQ.resolve name []) with
  | some (r, _) => r
  | none => none

/-- A name appears in the stored servers list of some Set of the registry.
Every member of a resolved Set list originates this way (soundness lemma
below). -/
def inStored (sets : List (String × SetVal)) (x : String) : Prop :=
  ∃ p, p ∈ sets ∧ x ∈ storedServers p.2

/-- A tool schema `{name, description, inputSchema}` as listed by a server
(src/strata/utils/catalog.py values; the schema body is opaque here). -/
structure ToolDescriptor where
  name : String
  description : Option String := none
  inputSchema : Option String := none
deriving DecidableEq

/-- src/strata/utils/catalog.py lines 51-54, `ToolCatalog.update_server`:
`self._catalog[server_name] = tools` (wholesale replacement of the entry;
the synchronous `self.save()` persists the same mapping and is not part of
the in-memory contract modelled here). -/
def update_server (catalog : List (String × List ToolDescriptor)) (serverName : String)
    (tools : List ToolDescriptor) : List (String × List ToolDescriptor) :=
  dictInsert catalog serverName tools

/-- src/strata/utils/catalog.py lines 56-58, `ToolCatalog.get_tools`:
`self._catalog.get(server_name, [])`. -/
def get_tools (catalog : List (String × List ToolDescriptor)) (serverName : String) :
    List ToolDescriptor :=
  ((catalog.find? (fun p => p.1 == serverName)).map (fun p => p.2)).getD []

/-- Outcome of `json.loads` on one parameter block, as seen by the callers:
a `json.JSONDecodeError`, a successful parse to a non-object value (on which
`dict.update` then raises TypeError), or a successful parse to an object. -/
inductive JsonOut (V : Type) where
  | jerr
  | jnonObj
  | jobj (m : List (String × V))
deriving DecidableEq

/-- Value supplied for one of the parameter blocks of execute: Python
`None`, a string, or an already-decoded mapping. -/
inductive ParamVal (V : Type) where
  | pnone
  | pstr (s : String)
  | pmap (m : List (String × V))
deriving DecidableEq

/-- Environment of an execute call: live-session registry, server registry,
the bound client's `is_connected()` answer, and the external oracles
(`json.loads`, plus the message texts of the exceptions it and `dict.update`
raise, which the sources interpolate into their error strings). -/
structure ExecEnv (V : Type) where
  active : List String
  registry : Registry
  isConn : String → Bool
  parse : String → JsonOut V
  decodeErrMsg : String → String
  typeErrMsg : String → String
  tbMsg : String → String

/-- Result of an execute embedding: an error dict (its fields in order), a
bare error text content block, or delegation to the bound client's
`call_tool(action, params)`. -/
inductive ExecOut (V : Type) where
  | errDict (fields : List (String × String))
  | errText (msg : String)
  | call (action : String) (params : List (String × V))
deriving DecidableEq

/-- Abstract parse-loop failure: `json.JSONDecodeError` on a named block, or
the TypeError `dict.update` raises on a parsed non-object. -/
inductive PErr where
  | badJson (blockName raw : String)
  | updTypeErr (raw : String)
deriving DecidableEq

/-- The parameter-block loop shared verbatim by
src/strata/treeshell_functions.py lines 143-156 and src/strata/tools.py
lines 568-588: each block is skipped when falsy (`None`, `""`, an empty
mapping) or exactly the string `"{}"`; a string block is `json.loads`-parsed
and merged with `dict.update`; a mapping block is merged directly; the first
failing block aborts the loop. -/
def parseBlocks {V : Type} (env : ExecEnv V) :
    List (String × ParamVal V) → List (String × V) → Except PErr (List (String × V))
  | [], acc => Except.ok acc
  | (blockName, pv) :: rest, acc =>
    match pv with
    | ParamVal.pnone => parseBlocks env rest acc
    | ParamVal.pstr s =>
        if s = "" ∨ s = emptyObjStr then parseBlocks env rest acc
        else
          match env.parse s with
          | JsonOut.jerr => Except.error (PErr.badJson blockName s)
          | JsonOut.jnonObj => Except.error (PErr.updTypeErr s)
          | JsonOut.jobj m => parseBlocks env rest (dictUpdate acc m)
    | ParamVal.pmap m =>
        if m.isEmpty then parseBlocks env rest acc
        else parseBlocks env rest (dictUpdate acc m)

/-- The `("error", ...)` field of the not-connected early return of both
execute paths. -/
def notConnectedMsg (n : String) : String × String :=
  ("error", "Server '" ++ n ++ "' is not connected")

/-- The `("suggestion", ...)` field of the not-connected early return of
both execute paths. -/
def connectSuggestion (n : String) : String × String :=
  ("suggestion",
    "Connect first with: manage_servers.exec \x7b\"connect\": \"" ++ n ++ "\"\x7d")

/-- The `("error", ...)` field of the not-configured early return of both
execute paths. -/
def notConfiguredMsg (n : String) : String × String :=
  ("error", "Server '" ++ n ++ "' not configured")

/-- treeshell_functions.py line 156: `{"error": f"Invalid JSON in
{param_name}: {str(e)}"}`. -/
def invalidJsonTS {V : Type} (env : ExecEnv V) (blockName raw : String) : ExecOut V :=
  ExecOut.errDict [("error", "Invalid JSON in " ++ blockName ++ ": " ++ env.decodeErrMsg raw)]

/-- treeshell_functions.py lines 161-163: the enclosing `except Exception`
(reached when `dict.update` raises TypeError on a parsed non-object). -/
def execFailedTS {V : Type} (env : ExecEnv V) (raw : String) : ExecOut V :=
  ExecOut.errDict
    [("error", "Execution failed: " ++ env.typeErrMsg raw), ("traceback", env.tbMsg raw)]

/-- tools.py lines 582-587: `_build_error_response` for invalid JSON, with
the `param_name` / truncated `param_value` context fields. -/
def invalidJsonTool {V : Type} (env : ExecEnv V) (blockName raw : String) : ExecOut V :=
  ExecOut.errDict
    [("status", "error"),
     ("error", "Invalid JSON in " ++ blockName ++ ": " ++ env.decodeErrMsg raw),
     ("param_name", blockName),
     ("param_value", raw.take 100)]

/-- tools.py lines 615-623: the top-level `except Exception` of the execute
branch (reached when `dict.update` raises TypeError). -/
def internalErrTool {V : Type} (env : ExecEnv V) (serverName actionName raw : String) :
    ExecOut V :=
  ExecOut.errDict
    [("status", "error"),
     ("error", "Internal error: " ++ env.typeErrMsg raw),
     ("server_name", serverName),
     ("action_name", actionName),
     ("traceback", env.tbMsg raw)]

/-- tools.py lines 561-566: `_build_error_response` when the bound client's
`is_connected()` is false. -/
def reconnectMsgTool (n : String) : List (String × String) :=
  [("status", "error"),
   ("error", "Server '" ++ n ++ "' is not connected"),
   ("server_name", n),
   ("suggestion", "Try reconnecting the server or check its configuration")]

/-- The fixed block list handed to the parameter loop, in source order. -/
def blocksOf {V : Type} (p q b : ParamVal V) : List (String × ParamVal V) :=
  [("path_params", p), ("query_params", q), ("body_schema", b)]

/-- src/strata/treeshell_functions.py lines 107-163, `execute_action`:
the connectivity precondition (no implicit connect), the registry
cross-check for the error kind, the `is_connected()` re-check, the
parameter-block loop, then delegation to `call_tool`.  The function never
touches the live-session registry (the source contains no connect call). -/
def execute_action {V : Type} (env : ExecEnv V) (serverName actionName : String)
    (pathParams queryParams bodySchema : ParamVal V) : ExecOut V :=
  if serverName ∈ env.active then
    if env.isConn serverName then
      match parseBlocks env (blocksOf pathParams queryParams bodySchema) [] with
      | Except.error (PErr.badJson bn s) => invalidJsonTS env bn s
      | Except.error (PErr.updTypeErr s) => execFailedTS env s
      | Except.ok ps => ExecOut.call actionName ps
    else ExecOut.errDict [notConnectedMsg serverName]
  else
    match get_server env.registry serverName with
    | some _ => ExecOut.errDict [notConnectedMsg serverName, connectSuggestion serverName]
    | none => ExecOut.errDict [notConfiguredMsg serverName]

/-- src/strata/tools.py lines 520-623, the TOOL_EXECUTE_ACTION branch of
`execute_tool`: the same early connectivity/registry check (lines 527-536),
then the required-fields check (line 539), the `is_connected()` check, the
parameter loop (`for`/`else` with `break` on the first bad block), then
delegation.  The inner duplicate `server_name not in active_clients` check
at line 549 is unreachable (nothing changes the live registry between the
two checks) and is therefore not represented. -/
def execute_tool_action {V : Type} (env : ExecEnv V) (serverName actionName : String)
    (pathParams queryParams bodySchema : ParamVal V) : ExecOut V :=
  if serverName ∈ env.active then
    if serverName = "" ∨ actionName = "" then
      ExecOut.errText "Error: Both server_name and action_name are required"
    else if env.isConn serverName then
      match parseBlocks env (blocksOf pathParams queryParams bodySchema) [] with
      | Except.error (PErr.badJson bn s) => invalidJsonTool env bn s
      | Except.error (PErr.updTypeErr s) => internalErrTool env serverName actionName s
      | Except.ok ps => ExecOut.call actionName ps
    else ExecOut.errDict (reconnectMsgTool serverName)
  else
    match get_server env.registry serverName with
    | some _ => ExecOut.errDict [notConnectedMsg serverName, connectSuggestion serverName]
    | none => ExecOut.errDict [notConfiguredMsg serverName]

/-- Environment of a `get_action_details` call: live sessions, registry,
and the live `list_tools()` oracle of a connected server. -/
structure GadEnv where
  active : List String
  registry : Registry
  toolsOf : String → List ToolDescriptor

/-- Result of `get_action_details`: a tool's details, an error dict, or an
unhandled Python exception escaping the function. -/
inductive GadOut where
  | ok (toolName : String) (description : Option String) (inputSchema : Option String)
  | errDict (fields : List (String × String))
  | fault (msg : String)
deriving DecidableEq

/-- src/strata/treeshell_functions.py lines 68-104, `get_action_details`.
When the server has a live session the tool is looked up by exact name.
Otherwise `get_client` raises KeyError and the handler evaluates
`[s.name for s in client_manager.server_list.servers]`; `server_list.servers`
is a dict, so the comprehension iterates its KEYS (strings).  A string has
no attribute `name`, so whenever the registry is non-empty the first element
raises AttributeError inside the `except KeyError` block, which the sibling
`except Exception` clause of the same `try` does not catch: the exception
escapes the function.  Only with an empty registry does the comprehension
produce `[]` and the not-configured branch run. -/
def get_action_details (env : GadEnv) (serverName actionName : String) : GadOut :=
  if serverName ∈ env.active then
    match (env.toolsOf serverName).find? (fun t => t.name == actionName) with
    | some t => GadOut.ok t.name t.description t.inputSchema
    | none =>
        GadOut.errDict
          [("error", "Action '" ++ actionName ++ "' not found on server '" ++ serverName ++ "'")]
  else
    match env.registry.servers with
    | [] =>
        GadOut.errDict
          [("error", "Server '" ++ serverName ++ "' is not configured"),
           ("fix", "Check ~/.config/strata/servers.json or use manage_servers to see available servers")]
    | _ :: _ => GadOut.fault "AttributeError: 'str' object has no attribute 'name'"

/-- Observable connection-manager events of a populate-catalog run. -/
inductive PEv where
  | connect (n : String)
  | disconnect (n : String)
  | catalogWrite (n : String)
deriving DecidableEq

/-- The server name an event concerns. -/
def pevName : PEv → String
  | PEv.connect n => n
  | PEv.disconnect n => n
  | PEv.catalogWrite n => n

/-- Oracles of a populate-catalog run: whether `_connect_server` completes
its handshake, whether the live `list_tools()` round-trip succeeds, and the
tool list it returns. -/
structure PCEnv where
  connectOk : String → Bool
  listOk : String → Bool
  listToolsOf : String → List ToolDescriptor

/-- Mutable state touched by populate-catalog: the live-session registry
and the catalog mapping. -/
structure PCState where
  active : List String
  catalog : List (String × List ToolDescriptor)
deriving DecidableEq

/-- One iteration of the populate loop,
src/strata/treeshell_functions.py lines 314-327 (identical in
src/strata/tools.py lines 446-458): remember whether the server was already
connected; connect only if not; `get_client` raises KeyError if the connect
failed (caught by the per-server `except`, which logs and continues);
`list_tools` may raise (also caught, and then the trailing disconnect is
SKIPPED, so a fresh session leaks but no pre-existing one is touched);
on success write the tools to the catalog and disconnect only if the server
had not been connected before. -/
def populateOne (env : PCEnv) (st : PCState) (s : MCPServerConfig) : PCState × List PEv :=
  if s.name ∈ st.active then
    if env.listOk s.name then
      ({ st with catalog := update_server st.catalog s.name (env.listToolsOf s.name) },
       [PEv.catalogWrite s.name])
    else (st, [])
  else
    if env.connectOk s.name then
      if env.listOk s.name then
        ({ active := (st.active ++ [s.name]).erase s.name,
           catalog := update_server st.catalog s.name (env.listToolsOf s.name) },
         [PEv.connect s.name, PEv.catalogWrite s.name, PEv.disconnect s.name])
      else ({ st with active := st.active ++ [s.name] }, [PEv.connect s.name])
    else (st, [PEv.connect s.name])

/-- The `for server in to_populate:` loop, threading state and collecting
events in order. -/
def popLoop (env : PCEnv) : List MCPServerConfig → PCState → PCState × List PEv
  | [], st => (st, [])
  | s :: rest, st =>
    let p := populateOne env st s
    let q := popLoop env rest p.1
    (q.1, p.2 ++ q.2)

/-- `to_populate`: the enabled servers whose catalog entry is empty
(`if not client_manager.catalog.get_tools(s.name)`). -/
def toPopulate (reg : Registry) (st : PCState) : List MCPServerConfig :=
  (list_servers reg true).filter (fun s => (get_tools st.catalog s.name).isEmpty)

/-- src/strata/treeshell_functions.py lines 305-328 (and src/strata/tools.py
lines 436-459), the populate-catalog branch of manage_servers.  The
`if not to_populate` branch only changes the reply text, not the state, and
coincides with folding over the empty list. -/
def populate_catalog (env : PCEnv) (reg : Registry) (st : PCState) : PCState × List PEv :=
  popLoop env (toPopulate reg st) st

/-- A parameter block that the loop accepts without aborting: skipped, a
mapping, or a string parsing to an object. -/
def blockOk {V : Type} (env : ExecEnv V) : ParamVal V → Prop
  | ParamVal.pnone => True
  | ParamVal.pmap _ => True
  | ParamVal.pstr s => s = "" ∨ s = emptyObjStr ∨ ∃ m, env.parse s = JsonOut.jobj m

/-- The key-value pairs a block contributes to the merged parameter object. -/
def blockPairs {V : Type} (env : ExecEnv V) : ParamVal V → List (String × V)
  | ParamVal.pnone => []
  | ParamVal.pmap m => m
  | ParamVal.pstr s =>
      if s = "" ∨ s = emptyObjStr then []
      else match env.parse s with
        | JsonOut.jobj m => m
        | _ => []

/- Concrete fixtures used by the witness and counterexample theorems. -/

/-- Scenario C of the spec: `travel = \x7bservers:[A,B], include_sets:[local]\x7d`,
`local = \x7bservers:[B,C]\x7d`, as stored by `add_set`. -/
def travelSets : List (String × SetVal) :=
  [("travel", SetVal.obj "" ["A", "B"] ["local"]),
   ("local", SetVal.obj "" ["B", "C"] [])]

/-- Two Sets including each other: an include cycle. -/
def cycleSets : List (String × SetVal) :=
  [("a", SetVal.obj "" ["X"] ["b"]),
   ("b", SetVal.obj "" ["Y"] ["a"])]

/-- A Set whose stored direct servers list contains a duplicate. -/
def dupSets : List (String × SetVal) :=
  [("x", SetVal.obj "" ["A", "A"] [])]

/-- Registry whose Set `g` lists server `A` twice. -/
def regDupA : Registry :=
  { servers := [("A", { name := "A" })],
    sets := [("g", SetVal.legacy ["A", "A"])] }

/-- Registry with duplicate-free Set members, for the amended C4 claim. -/
def regCleanA : Registry :=
  { servers := [("A", { name := "A" }), ("B", { name := "B" })],
    sets := [("g", SetVal.legacy ["A", "B"]), ("h", SetVal.obj "d" ["A"] ["g"])] }

/-- A configured `weather` server definition. -/
def cfgWeather : MCPServerConfig := { name := "weather" }

/-- Execute environment: `weather` configured but with no live session. -/
def envNotConn : ExecEnv Nat :=
  { active := [],
    registry := { servers := [("weather", cfgWeather)], sets := [] },
    isConn := fun _ => false,
    parse := fun _ => JsonOut.jerr,
    decodeErrMsg := fun _ => "",
    typeErrMsg := fun _ => "",
    tbMsg := fun _ => "" }

/-- Execute environment: server `svc` connected; the parser rejects the
string `"bad"` and parses anything else to `\x7b"city": 1\x7d`. -/
def envConn : ExecEnv Nat :=
  { active := ["svc"],
    registry := { servers := [("svc", { name := "svc" })], sets := [] },
    isConn := fun _ => true,
    parse := fun s => if s = "bad" then JsonOut.jerr else JsonOut.jobj [("city", 1)],
    decodeErrMsg := fun _ => "Expecting value: line 1 column 1 (char 0)",
    typeErrMsg := fun _ => "",
    tbMsg := fun _ => "" }

/-- get_action_details environment: `weather` configured, nothing live. -/
def gadEnvW : GadEnv :=
  { active := [],
    registry := { servers := [("weather", cfgWeather)], sets := [] },
    toolsOf := fun _ => [] }

/-- populate-catalog oracles: every connect and listing succeeds, every
server lists one tool `t1`. -/
def pcEnvW : PCEnv :=
  { connectOk := fun _ => true,
    listOk := fun _ => true,
    listToolsOf := fun _ => [{ name := "t1" }] }

/-- Registry with an enabled server `w` (connected), an enabled server `u`
(not connected), and a disabled server `d`. -/
def pcRegW : Registry :=
  { servers :=
      [("w", { name := "w" }),
       ("u", { name := "u" }),
       ("d", { name := "d", enabled := false })],
    sets := [] }

/-- populate-catalog start state: `w` live, empty catalog. -/
def pcStW : PCState := { active := ["w"], catalog := [] }

/-! ### Helper lemmas: dictionaries, filters, fold maxima, merge loop -/

theorem find?_dictInsert_self {α : Type} (k : String) (v : α) :
    ∀ d : List (String × α), (dictInsert d k v).find? (fun p => p.1 == k) = some (k, v) := by
  intro d
  induction d with
  | nil => simp [dictInsert]
  | cons p rest ih =>
    cases hp : p.1 == k with
    | true => simp [dictInsert, hp]
    | false => simp [dictInsert, hp, ih]

theorem filter_length_le {α : Type} (p q : α → Bool) (h : ∀ x, p x = true → q x = true) :
    ∀ l : List α, (l.filter p).length ≤ (l.filter q).length := by
  intro l
  induction l with
  | nil => simp
  | cons a t ih =>
    cases hp : p a with
    | true =>
      have hq := h a hp
      simpa [List.filter_cons, hp, hq] using Nat.succ_le_succ ih
    | false =>
      cases hq : q a with
      | true =>
        simp only [List.filter_cons, hp, hq, if_pos, if_neg, Bool.false_eq_true,
          ite_false, ite_true, List.length_cons]
        exact Nat.le_succ_of_le ih
      | false => simpa [List.filter_cons, hp, hq] using ih

theorem filter_length_lt {α : Type} (p q : α → Bool) (h : ∀ x, p x = true → q x = true)
    (a : α) : ∀ l : List α, a ∈ l → q a = true → p a = false →
    (l.filter p).length < (l.filter q).length := by
  intro l
  induction l with
  | nil => intro ha; simp at ha
  | cons b t ih =>
    intro ha hq hp
    rcases List.mem_cons.mp ha with hab | hat
    · subst hab
      simp only [List.filter_cons, hp, hq, Bool.false_eq_true, ite_false, ite_true,
        List.length_cons]
      exact Nat.lt_succ_of_le (filter_length_le p q h t)
    · cases hpb : p b with
      | true =>
        have hqb := h b hpb
        simpa [List.filter_cons, hpb, hqb] using Nat.succ_lt_succ (ih hat hq hp)
      | false =>
        cases hqb : q b with
        | true =>
          simp only [List.filter_cons, hpb, hqb, Bool.false_eq_true, ite_false, ite_true,
            List.length_cons]
          exact Nat.lt_succ_of_lt (ih hat hq hp)
        | false => simpa [List.filter_cons, hpb, hqb] using ih hat hq hp

theorem uc_mono (sets : List (String × SetVal)) (v w : List String) (hsub : v ⊆ w) :
    unvisitedCount sets w ≤ unvisitedCount sets v := by
  apply filter_length_le
  intro x hx
  simp only [Bool.not_eq_true', decide_eq_false_iff_not] at hx ⊢
  intro hxv
  exact hx (hsub hxv)

theorem uc_cons_lt (sets : List (String × SetVal)) (name : String) (visited : List String)
    (hnv : name ∉ visited) (hlk : (lookupSet sets name).isSome = true) :
    unvisitedCount sets (name :: visited) < unvisitedCount sets visited := by
  have hfind : (sets.find? (fun p => p.1 == name)).isSome = true := by
    simpa [lookupSet] using hlk
  obtain ⟨pr, hpr⟩ := Option.isSome_iff_exists.mp hfind
  have hmem : pr ∈ sets := List.mem_of_find?_eq_some hpr
  have hkey : pr.1 = name := by
    have := List.find?_some hpr
    simpa using this
  have hmap : name ∈ sets.map (fun p => p.1) := by
    exact List.mem_map.mpr ⟨pr, hmem, hkey⟩
  apply filter_length_lt _ _ _ name _ hmap
  · simpa using hnv
  · simp
  · intro x hx
    simp only [Bool.not_eq_true', decide_eq_false_iff_not, List.mem_cons] at hx ⊢
    intro hxv
    exact hx (Or.inr hxv)

theorem foldl_max_init_le {β : Type} (f : β → Nat) :
    ∀ (l : List β) (a : Nat), a ≤ l.foldl (fun m p => max m (f p)) a := by
  intro l
  induction l with
  | nil => intro a; exact Nat.le_refl a
  | cons b t ih => intro a; exact Nat.le_trans (Nat.le_max_left a (f b)) (ih (max a (f b)))

theorem foldl_max_mem {β : Type} (f : β → Nat) :
    ∀ (l : List β) (a : Nat) (p : β), p ∈ l → f p ≤ l.foldl (fun m q => max m (f q)) a := by
  intro l
  induction l with
  | nil => intro a p hp; simp at hp
  | cons b t ih =>
    intro a p hp
    rcases List.mem_cons.mp hp with h | h
    · subst h; exact Nat.le_trans (Nat.le_max_right a (f p)) (foldl_max_init_le f t _)
    · exact ih _ p h

theorem maxIncl_le (sets : List (String × SetVal)) (p : String × SetVal) (hp : p ∈ sets) :
    inclLen p.2 ≤ maxIncl sets :=
  foldl_max_mem (fun q => inclLen q.2) sets 0 p hp

theorem mergeNew_cons (acc : List String) (srv : String) (rest : List String) :
    mergeNew acc (srv :: rest) = mergeNew (if srv ∈ acc then acc else acc ++ [srv]) rest := rfl

theorem mergeNew_append : ∀ (l acc : List String), ∃ t, mergeNew acc l = acc ++ t := by
  intro l
  induction l with
  | nil => intro acc; exact ⟨[], by simp [mergeNew]⟩
  | cons srv rest ih =>
    intro acc
    rw [mergeNew_cons]
    by_cases h : srv ∈ acc
    · rw [if_pos h]; exact ih acc
    · rw [if_neg h]
      obtain ⟨t, ht⟩ := ih (acc ++ [srv])
      exact ⟨srv :: t, by rw [ht, List.append_assoc]; rfl⟩

theorem mergeNew_nodup : ∀ (l acc : List String), acc.Nodup → (mergeNew acc l).Nodup := by
  intro l
  induction l with
  | nil => intro acc h; simpa [mergeNew] using h
  | cons srv rest ih =>
    intro acc h
    rw [mergeNew_cons]
    by_cases hs : srv ∈ acc
    · rw [if_pos hs]; exact ih acc h
    · rw [if_neg hs]
      refine ih (acc ++ [srv]) ?_
      simp [List.nodup_append, h, hs]

theorem mergeNew_mem : ∀ (l acc : List String) (x : String),
    x ∈ mergeNew acc l → x ∈ acc ∨ x ∈ l := by
  intro l
  induction l with
  | nil => intro acc x hx; left; simpa [mergeNew] using hx
  | cons srv rest ih =>
    intro acc x hx
    rw [mergeNew_cons] at hx
    by_cases hs : srv ∈ acc
    · rw [if_pos hs] at hx
      rcases ih acc x hx with h | h
      · exact Or.inl h
      · exact Or.inr (List.mem_cons_of_mem _ h)
    · rw [if_neg hs] at hx
      rcases ih (acc ++ [srv]) x hx with h | h
      · rcases List.mem_append.mp h with h1 | h1
        · exact Or.inl h1
        · simp only [List.mem_singleton] at h1
          exact Or.inr (by simp [h1])
      · exact Or.inr (List.mem_cons_of_mem _ h)

/-! ### Helper lemmas: Set resolution (`setRun`) -/

theorem lookupSet_exists (sets : List (String × SetVal)) (name : String) (sv : SetVal)
    (h : lookupSet sets name = some sv) : ∃ pr, pr ∈ sets ∧ pr.2 = sv := by
  unfold lookupSet at h
  rcases Option.map_eq_some'.mp h with ⟨pr, hfind, hpr⟩
  exact ⟨pr, List.mem_of_find?_eq_some hfind, hpr⟩

theorem phi_arith1 (L u u' incl f : Nat) (hu : u' < u) (hincl : incl ≤ L)
    (hf : (L + 2) * u + 1 ≤ f) : (L + 2) * u' + incl + 1 < f := by
  obtain ⟨d, rfl⟩ := Nat.exists_eq_add_of_lt hu
  have hx : (L + 2) * (u' + d + 1) = (L + 2) * u' + ((L + 2) * d + (L + 2)) := by ring
  rw [hx] at hf
  generalize hA : (L + 2) * u' = A at hf ⊢
  generalize hB : (L + 2) * d = B at hf
  omega

theorem phi_arith2a (K u r f : Nat) (hf : K * u + (r + 1) + 1 < f + 1) : K * u + 1 < f := by
  generalize hA : K * u = A at hf ⊢
  omega

theorem phi_arith2b (K u u2 r f : Nat) (hu : u2 ≤ u)
    (hf : K * u + (r + 1) + 1 < f + 1) : K * u2 + r + 1 < f := by
  have hm : K * u2 ≤ K * u := Nat.mul_le_mul_left K hu
  generalize hA : K * u = A at hf hm
  generalize hB : K * u2 = B at hm ⊢
  omega

theorem setRun_visited (sets : List (String × SetVal)) :
    ∀ (fuel : Nat) (q : SetQ) (out : Option (List String) × List String),
      setRun sets fuel q = some out → qVisited q ⊆ out.2 := by
  intro fuel
  induction fuel with
  | zero => intro q out h; simp [setRun] at h
  | succ f ih =>
    intro q out h
    cases q with
    | resolve name visited =>
      simp only [setRun] at h
      by_cases hv : name ∈ visited
      · rw [if_pos hv] at h
        cases h
        simp [qVisited]
      · rw [if_neg hv] at h
        cases hlk : lookupSet sets name with
        | none =>
          rw [hlk] at h
          cases h
          exact fun x hx => List.mem_cons_of_mem _ hx
        | some sv =>
          rw [hlk] at h
          cases sv with
          | legacy l =>
            cases h
            exact fun x hx => List.mem_cons_of_mem _ hx
          | obj d servers includes =>
            have h2 := ih (SetQ.fold includes servers (name :: visited)) out h
            simp only [qVisited] at h2 ⊢
            exact fun x hx => h2 (List.mem_cons_of_mem _ hx)
    | fold includes acc visited =>
      cases includes with
      | nil =>
        simp only [setRun] at h
        cases h
        simp [qVisited]
      | cons inc rest =>
        simp only [setRun] at h
        cases hr : setRun sets f (SetQ.resolve inc visited) with
        | none => rw [hr] at h; cases h
        | some pr =>
          rw [hr] at h
          obtain ⟨res, v2⟩ := pr
          have h1 : visited ⊆ v2 := ih (SetQ.resolve inc visited) (res, v2) hr
          cases res with
          | some l =>
            have h2 := ih (SetQ.fold rest (mergeNew acc l) v2) out h
            simp only [qVisited] at h2 ⊢
            exact h1.trans h2
          | none =>
            have h2 := ih (SetQ.fold rest acc v2) out h
            simp only [qVisited] at h2 ⊢
            exact h1.trans h2

theorem setRun_isSome (sets : List (String × SetVal)) :
    ∀ (fuel : Nat) (q : SetQ), phi sets q < fuel → (setRun sets fuel q).isSome = true := by
  intro fuel
  induction fuel with
  | zero => intro q h; exact absurd h (Nat.not_lt_zero _)
  | succ f ih =>
    intro q h
    cases q with
    | resolve name visited =>
      simp only [setRun]
      by_cases hv : name ∈ visited
      · rw [if_pos hv]; rfl
      · rw [if_neg hv]
        cases hlk : lookupSet sets name with
        | none => rfl
        | some sv =>
          cases sv with
          | legacy l => rfl
          | obj d servers includes =>
            apply ih
            have hu : unvisitedCount sets (name :: visited) < unvisitedCount sets visited :=
              uc_cons_lt sets name visited hv (by rw [hlk]; rfl)
            have hincl : includes.length ≤ maxIncl sets := by
              obtain ⟨pr, hmem, hpr⟩ := lookupSet_exists sets name _ hlk
              have h3 := maxIncl_le sets pr hmem
              rw [hpr] at h3
              simpa [inclLen] using h3
            have hf : (maxIncl sets + 2) * unvisitedCount sets visited + 1 ≤ f := by
              simp only [phi] at h
              omega
            simp only [phi]
            exact phi_arith1 (maxIncl sets) _ _ _ f hu hincl hf
    | fold includes acc visited =>
      cases includes with
      | nil => simp [setRun]
      | cons inc rest =>
        simp only [setRun]
        simp only [phi, List.length_cons] at h
        have h1 : phi sets (SetQ.resolve inc visited) < f := by
          simp only [phi]
          exact phi_arith2a (maxIncl sets + 2) (unvisitedCount sets visited) rest.length f h
        have hs1 := ih (SetQ.resolve inc visited) h1
        cases hr : setRun sets f (SetQ.resolve inc visited) with
        | none => rw [hr] at hs1; simp at hs1
        | some pr =>
          obtain ⟨res, v2⟩ := pr
          have hsub : visited ⊆ v2 :=
            setRun_visited sets f (SetQ.resolve inc visited) (res, v2) hr
          have hu2 : unvisitedCount sets v2 ≤ unvisitedCount sets visited :=
            uc_mono sets visited v2 hsub
          have h2 : (maxIncl sets + 2) * unvisitedCount sets v2 + rest.length + 1 < f :=
            phi_arith2b (maxIncl sets + 2) _ _ rest.length f hu2 h
          cases res with
          | some l => exact ih (SetQ.fold rest (mergeNew acc l) v2) h2
          | none => exact ih (SetQ.fold rest acc v2) h2

theorem phi_lt_setFuel (sets : List (String × SetVal)) (name : String) :
    phi sets (SetQ.resolve name []) < setFuel sets := by
  have h1 : unvisitedCount sets [] ≤ sets.length := by
    have h := List.length_filter_le (fun n => !(decide (n ∈ ([] : List String))))
      (sets.map (fun p => p.1))
    simp only [List.length_map] at h
    exact h
  have h2 : unvisitedCount sets [] < sets.length + 1 := Nat.lt_succ_of_le h1
  have h3 : (maxIncl sets + 2) * unvisitedCount sets [] <
      (maxIncl sets + 2) * (sets.length + 1) :=
    mul_lt_mul_of_pos_left h2 (by omega)
  simp only [phi, setFuel]
  exact Nat.add_lt_add_right h3 1

theorem setRun_top_isSome (sets : List (String × SetVal)) (name : String) :
    (setRun sets (setFuel sets) (SetQ.resolve name [])).isSome = true :=
  setRun_isSome sets _ _ (phi_lt_setFuel sets name)

theorem setRun_fold_shape (sets : List (String × SetVal)) :
    ∀ (fuel : Nat) (includes acc visited : List String)
      (out : Option (List String) × List String),
      setRun sets fuel (SetQ.fold includes acc visited) = some out →
      ∃ t, out.1 = some (acc ++ t) := by
  intro fuel
  induction fuel with
  | zero => intro includes acc visited out h; simp [setRun] at h
  | succ f ih =>
    intro includes acc visited out h
    cases includes with
    | nil =>
      simp only [setRun] at h
      cases h
      exact ⟨[], by simp⟩
    | cons inc rest =>
      simp only [setRun] at h
      cases hr : setRun sets f (SetQ.resolve inc visited) with
      | none => rw [hr] at h; cases h
      | some pr =>
        rw [hr] at h
        obtain ⟨res, v2⟩ := pr
        cases res with
        | some l =>
          obtain ⟨t, ht⟩ := ih rest (mergeNew acc l) v2 out h
          obtain ⟨t0, ht0⟩ := mergeNew_append l acc
          exact ⟨t0 ++ t, by rw [ht, ht0, List.append_assoc]⟩
        | none => exact ih rest acc v2 out h

theorem setRun_fold_nodup (sets : List (String × SetVal)) :
    ∀ (fuel : Nat) (includes acc visited : List String)
      (out : Option (List String) × List String),
      setRun sets fuel (SetQ.fold includes acc visited) = some out →
      acc.Nodup → ∀ res, out.1 = some res → res.Nodup := by
  intro fuel
  induction fuel with
  | zero => intro includes acc visited out h; simp [setRun] at h
  | succ f ih =>
    intro includes acc visited out h hnd res hres
    cases includes with
    | nil =>
      simp only [setRun] at h
      cases h
      simp only at hres
      cases hres
      exact hnd
    | cons inc rest =>
      simp only [setRun] at h
      cases hr : setRun sets f (SetQ.resolve inc visited) with
      | none => rw [hr] at h; cases h
      | some pr =>
        rw [hr] at h
        obtain ⟨r1, v2⟩ := pr
        cases r1 with
        | some l => exact ih rest (mergeNew acc l) v2 out h (mergeNew_nodup l acc hnd) res hres
        | none => exact ih rest acc v2 out h hnd res hres

theorem setRun_sound (sets : List (String × SetVal)) :
    ∀ (fuel : Nat) (q : SetQ) (out : Option (List String) × List String),
      setRun sets fuel q = some out →
      ∀ res, out.1 = some res → ∀ x, x ∈ res → x ∈ qAcc q ∨ inStored sets x := by
  intro fuel
  induction fuel with
  | zero => intro q out h; simp [setRun] at h
  | succ f ih =>
    intro q out h res hres x hx
    cases q with
    | resolve name visited =>
      simp only [setRun] at h
      by_cases hv : name ∈ visited
      · rw [if_pos hv] at h
        cases h
        simp only at hres
        cases hres
        simp at hx
      · rw [if_neg hv] at h
        cases hlk : lookupSet sets name with
        | none =>
          rw [hlk] at h
          cases h
          simp at hres
        | some sv =>
          rw [hlk] at h
          cases sv with
          | legacy l =>
            cases h
            simp only at hres
            cases hres
            obtain ⟨pr, hmem, hpr⟩ := lookupSet_exists sets name _ hlk
            exact Or.inr ⟨pr, hmem, by rw [hpr]; exact hx⟩
          | obj d servers includes =>
            have h2 := ih (SetQ.fold includes servers (name :: visited)) out h res hres x hx
            rcases h2 with h2 | h2
            · obtain ⟨pr, hmem, hpr⟩ := lookupSet_exists sets name _ hlk
              exact Or.inr ⟨pr, hmem, by rw [hpr]; exact h2⟩
            · exact Or.inr h2
    | fold includes acc visited =>
      cases includes with
      | nil =>
        simp only [setRun] at h
        cases h
        simp only at hres
        cases hres
        exact Or.inl hx
      | cons inc rest =>
        simp only [setRun] at h
        cases hr : setRun sets f (SetQ.resolve inc visited) with
        | none => rw [hr] at h; cases h
        | some pr =>
          rw [hr] at h
          obtain ⟨r1, v2⟩ := pr
          cases r1 with
          | some l =>
            have h2 := ih (SetQ.fold rest (mergeNew acc l) v2) out h res hres x hx
            rcases h2 with h2 | h2
            · rcases mergeNew_mem l acc x h2 with h3 | h3
              · exact Or.inl h3
              · have h4 := ih (SetQ.resolve inc visited) (some l, v2) hr l rfl x h3
                rcases h4 with h4 | h4
                · simp [qAcc] at h4
                · exact Or.inr h4
            · exact Or.inr h2
          | none =>
            have h2 := ih (SetQ.fold rest acc v2) out h res hres x hx
            exact h2

theorem get_set_eq_some (sets : List (String × SetVal)) (name : String) (res : List String)
    (h : get_set sets name = some res) :
    ∃ v, setRun sets (setFuel sets) (SetQ.resolve name []) = some (some res, v) := by
  cases hr : setRun sets (setFuel sets) (SetQ.resolve name []) with
  | none =>
    unfold get_set at h
    rw [hr] at h
    cases h
  | some out =>
    obtain ⟨r, v⟩ := out
    unfold get_set at h
    rw [hr] at h
    have hrr : r = some res := h
    subst hrr
    exact ⟨v, rfl⟩

theorem storedServers_purge (name : String) (sv : SetVal) :
    storedServers (purgeName name sv) = (storedServers sv).erase name := by
  cases sv <;> rfl

/-! ### Helper lemmas: the parameter-block loop -/

theorem dictUpdate_nil {α : Type} (d : List (String × α)) : dictUpdate d [] = d := rfl

theorem parseBlocks_pnone {V : Type} (env : ExecEnv V) (bn : String)
    (rest : List (String × ParamVal V)) (acc : List (String × V)) :
    parseBlocks env ((bn, ParamVal.pnone) :: rest) acc = parseBlocks env rest acc := rfl

theorem parseBlocks_skip_head {V : Type} (env : ExecEnv V) (bn : String) (v : ParamVal V)
    (hv : v = ParamVal.pnone ∨ v = ParamVal.pstr "" ∨ v = ParamVal.pstr emptyObjStr) :
    ∀ (rest : List (String × ParamVal V)) (acc : List (String × V)),
      parseBlocks env ((bn, v) :: rest) acc = parseBlocks env rest acc := by
  intro rest acc
  rcases hv with h | h | h <;> subst h
  · rfl
  · simp [parseBlocks]
  · simp [parseBlocks]

theorem parseBlocks_skip_at {V : Type} (env : ExecEnv V) (bn : String) (v : ParamVal V)
    (hv : v = ParamVal.pnone ∨ v = ParamVal.pstr "" ∨ v = ParamVal.pstr emptyObjStr) :
    ∀ (xs ys : List (String × ParamVal V)) (acc : List (String × V)),
      parseBlocks env (xs ++ (bn, v) :: ys) acc =
        parseBlocks env (xs ++ (bn, ParamVal.pnone) :: ys) acc := by
  intro xs
  induction xs with
  | nil =>
    intro ys acc
    simp only [List.nil_append]
    rw [parseBlocks_skip_head env bn v hv, parseBlocks_pnone]
  | cons hd tl ih =>
    intro ys acc
    obtain ⟨hb, pv⟩ := hd
    cases pv with
    | pnone =>
      simp only [List.cons_append, parseBlocks]
      exact ih ys acc
    | pstr s =>
      simp only [List.cons_append, parseBlocks]
      by_cases hs : s = "" ∨ s = emptyObjStr
      · rw [if_pos hs, if_pos hs]; exact ih ys acc
      · rw [if_neg hs, if_neg hs]
        cases env.parse s with
        | jerr => rfl
        | jnonObj => rfl
        | jobj m => exact ih ys (dictUpdate acc m)
    | pmap m =>
      simp only [List.cons_append, parseBlocks]
      by_cases hm : m.isEmpty = true
      · rw [if_pos hm, if_pos hm]; exact ih ys acc
      · rw [if_neg hm, if_neg hm]; exact ih ys (dictUpdate acc m)

theorem parseBlocks_ok_head {V : Type} (env : ExecEnv V) (bn : String) (pv : ParamVal V)
    (hok : blockOk env pv) (rest : List (String × ParamVal V)) (acc : List (String × V)) :
    parseBlocks env ((bn, pv) :: rest) acc =
      parseBlocks env rest (dictUpdate acc (blockPairs env pv)) := by
  cases pv with
  | pnone => rfl
  | pstr s =>
    by_cases hs : s = "" ∨ s = emptyObjStr
    · simp only [parseBlocks, blockPairs, if_pos hs]
      rfl
    · simp only [blockOk] at hok
      rcases hok with h | h | ⟨m, hm⟩
      · exact absurd (Or.inl h) hs
      · exact absurd (Or.inr h) hs
      · simp only [parseBlocks, blockPairs, if_neg hs, hm]
  | pmap m =>
    by_cases hm : m.isEmpty = true
    · have hnil : m = [] := List.isEmpty_iff.mp hm
      subst hnil
      rfl
    · simp only [parseBlocks, blockPairs, if_neg hm]

theorem parseBlocks_bad_head {V : Type} (env : ExecEnv V) (bn : String) (s : String)
    (h1 : ¬(s = "" ∨ s = emptyObjStr)) (hp : env.parse s = JsonOut.jerr)
    (rest : List (String × ParamVal V)) (acc : List (String × V)) :
    parseBlocks env ((bn, ParamVal.pstr s) :: rest) acc =
      Except.error (PErr.badJson bn s) := by
  simp only [parseBlocks, if_neg h1, hp]

theorem parseBlocks_blocks_ok {V : Type} (env : ExecEnv V) (p q b : ParamVal V)
    (hp : blockOk env p) (hq : blockOk env q) (hb : blockOk env b) :
    parseBlocks env (blocksOf p q b) [] =
      Except.ok (dictUpdate (dictUpdate (dictUpdate [] (blockPairs env p))
        (blockPairs env q)) (blockPairs env b)) := by
  unfold blocksOf
  rw [parseBlocks_ok_head env _ p hp, parseBlocks_ok_head env _ q hq,
    parseBlocks_ok_head env _ b hb]
  rfl

/-! ### Helper lemmas: the populate-catalog loop -/

theorem populateOne_active_mono (env : PCEnv) (st : PCState) (s : MCPServerConfig)
    (n : String) (hn : n ∈ st.active) : n ∈ (populateOne env st s).1.active := by
  unfold populateOne
  by_cases hw : s.name ∈ st.active
  · rw [if_pos hw]
    by_cases hl : env.listOk s.name = true
    · rw [if_pos hl]; exact hn
    · rw [if_neg hl]; exact hn
  · rw [if_neg hw]
    have hne : n ≠ s.name := fun he => hw (he ▸ hn)
    by_cases hc : env.connectOk s.name = true
    · rw [if_pos hc]
      by_cases hl : env.listOk s.name = true
      · rw [if_pos hl]
        exact (List.mem_erase_of_ne hne).mpr (List.mem_append_left _ hn)
      · rw [if_neg hl]
        exact List.mem_append_left _ hn
    · rw [if_neg hc]; exact hn

theorem populateOne_ev_name (env : PCEnv) (st : PCState) (s : MCPServerConfig)
    (e : PEv) (he : e ∈ (populateOne env st s).2) : pevName e = s.name := by
  unfold populateOne at he
  by_cases hw : s.name ∈ st.active
  · rw [if_pos hw] at he
    by_cases hl : env.listOk s.name = true
    · rw [if_pos hl] at he
      simp only [List.mem_cons, List.not_mem_nil, or_false] at he
      subst he; rfl
    · rw [if_neg hl] at he; simp at he
  · rw [if_neg hw] at he
    by_cases hc : env.connectOk s.name = true
    · rw [if_pos hc] at he
      by_cases hl : env.listOk s.name = true
      · rw [if_pos hl] at he
        simp only [List.mem_cons, List.not_mem_nil, or_false] at he
        rcases he with rfl | rfl | rfl <;> rfl
      · rw [if_neg hl] at he
        simp only [List.mem_cons, List.not_mem_nil, or_false] at he
        subst he; rfl
    · rw [if_neg hc] at he
      simp only [List.mem_cons, List.not_mem_nil, or_false] at he
      subst he; rfl

theorem populateOne_connect (env : PCEnv) (st : PCState) (s : MCPServerConfig)
    (n : String) (he : PEv.connect n ∈ (populateOne env st s).2) :
    n ∉ st.active ∧ n = s.name := by
  unfold populateOne at he
  by_cases hw : s.name ∈ st.active
  · rw [if_pos hw] at he
    by_cases hl : env.listOk s.name = true
    · rw [if_pos hl] at he; simp at he
    · rw [if_neg hl] at he; simp at he
  · rw [if_neg hw] at he
    by_cases hc : env.connectOk s.name = true
    · rw [if_pos hc] at he
      by_cases hl : env.listOk s.name = true
      · rw [if_pos hl] at he
        simp only [List.mem_cons, List.not_mem_nil, or_false] at he
        rcases he with he | he | he
        · cases he; exact ⟨hw, rfl⟩
        · cases he
        · cases he
      · rw [if_neg hl] at he
        simp only [List.mem_cons, List.not_mem_nil, or_false] at he
        cases he; exact ⟨hw, rfl⟩
    · rw [if_neg hc] at he
      simp only [List.mem_cons, List.not_mem_nil, or_false] at he
      cases he; exact ⟨hw, rfl⟩

theorem populateOne_disconnect (env : PCEnv) (st : PCState) (s : MCPServerConfig)
    (n : String) (he : PEv.disconnect n ∈ (populateOne env st s).2) :
    n ∉ st.active ∧ n = s.name := by
  unfold populateOne at he
  by_cases hw : s.name ∈ st.active
  · rw [if_pos hw] at he
    by_cases hl : env.listOk s.name = true
    · rw [if_pos hl] at he; simp at he
    · rw [if_neg hl] at he; simp at he
  · rw [if_neg hw] at he
    by_cases hc : env.connectOk s.name = true
    · rw [if_pos hc] at he
      by_cases hl : env.listOk s.name = true
      · rw [if_pos hl] at he
        simp only [List.mem_cons, List.not_mem_nil, or_false] at he
        rcases he with he | he | he
        · cases he
        · cases he
        · cases he; exact ⟨hw, rfl⟩
      · rw [if_neg hl] at he
        simp only [List.mem_cons, List.not_mem_nil, or_false] at he
        cases he
    · rw [if_neg hc] at he
      simp only [List.mem_cons, List.not_mem_nil, or_false] at he
      cases he

theorem popLoop_active_mono (env : PCEnv) :
    ∀ (l : List MCPServerConfig) (st : PCState) (n : String),
      n ∈ st.active → n ∈ (popLoop env l st).1.active := by
  intro l
  induction l with
  | nil => intro st n hn; exact hn
  | cons s rest ih =>
    intro st n hn
    exact ih (populateOne env st s).1 n (populateOne_active_mono env st s n hn)

theorem popLoop_ev (env : PCEnv) :
    ∀ (l : List MCPServerConfig) (st : PCState) (e : PEv),
      e ∈ (popLoop env l st).2 → ∃ s, s ∈ l ∧ pevName e = s.name := by
  intro l
  induction l with
  | nil => intro st e he; simp [popLoop] at he
  | cons s rest ih =>
    intro st e he
    simp only [popLoop] at he
    rcases List.mem_append.mp he with h | h
    · exact ⟨s, List.mem_cons_self s rest, populateOne_ev_name env st s e h⟩
    · obtain ⟨s2, hs2, hname⟩ := ih (populateOne env st s).1 e h
      exact ⟨s2, List.mem_cons_of_mem _ hs2, hname⟩

theorem popLoop_connect (env : PCEnv) :
    ∀ (l : List MCPServerConfig) (st : PCState) (n : String),
      PEv.connect n ∈ (popLoop env l st).2 → n ∉ st.active := by
  intro l
  induction l with
  | nil => intro st n hn; simp [popLoop] at hn
  | cons s rest ih =>
    intro st n hn
    simp only [popLoop] at hn
    rcases List.mem_append.mp hn with h | h
    · exact (populateOne_connect env st s n h).1
    · intro hmem
      exact ih (populateOne env st s).1 n h (populateOne_active_mono env st s n hmem)

theorem popLoop_disconnect (env : PCEnv) :
    ∀ (l : List MCPServerConfig) (st : PCState) (n : String),
      PEv.disconnect n ∈ (popLoop env l st).2 → n ∉ st.active := by
  intro l
  induction l with
  | nil => intro st n hn; simp [popLoop] at hn
  | cons s rest ih =>
    intro st n hn
    simp only [popLoop] at hn
    rcases List.mem_append.mp hn with h | h
    · exact (populateOne_disconnect env st s n h).1
    · intro hmem
      exact ih (populateOne env st s).1 n h (populateOne_active_mono env st s n hmem)

theorem execute_action_parse_congr {V : Type} (env : ExecEnv V)
    (serverName actionName : String) (p q b p2 q2 b2 : ParamVal V)
    (h : parseBlocks env (blocksOf p q b) [] = parseBlocks env (blocksOf p2 q2 b2) []) :
    execute_action env serverName actionName p q b =
      execute_action env serverName actionName p2 q2 b2 := by
  unfold execute_action
  rw [h]

theorem execute_tool_action_parse_congr {V : Type} (env : ExecEnv V)
    (serverName actionName : String) (p q b p2 q2 b2 : ParamVal V)
    (h : parseBlocks env (blocksOf p q b) [] = parseBlocks env (blocksOf p2 q2 b2) []) :
    execute_tool_action env serverName actionName p q b =
      execute_tool_action env serverName actionName p2 q2 b2 := by
  unfold execute_tool_action
  rw [h]

/-! ### Claim theorems -/

/-- Claim C5: the Catalog's `update_server` wholesale-replaces the cached
entry for a name: after two successive `update_server` calls with lists `t1`
then `t2`, `get_tools` on that name returns exactly `t2` (and already a
single update is read back verbatim), so tools present only in the first
list do not survive — the entry is replaced, never merged. -/
theorem update_server_wholesale (catalog : List (String × List ToolDescriptor))
    (n : String) (t1 t2 : List ToolDescriptor) :
    get_tools (update_server (update_server catalog n t1) n t2) n = t2 ∧
    get_tools (update_server catalog n t2) n = t2 := by
  constructor <;> simp [get_tools, update_server, find?_dictInsert_self]

/-- Claim C2: resolving a Set terminates and yields a finite member list
even when `include_sets` chains form an arbitrarily deep cycle: the fuel
`setFuel` is always sufficient for the full resolution (`setRun` never runs
out), every defined Set resolves to some list under `get_set`, and a
revisited Set name contributes the empty list, leaving the visited set
unchanged. -/
theorem get_set_cycle_safe :
    (∀ (sets : List (String × SetVal)) (name : String),
        (setRun sets (setFuel sets) (SetQ.resolve name [])).isSome = true) ∧
    (∀ (sets : List (String × SetVal)) (name : String) (sv : SetVal),
        lookupSet sets name = some sv → ∃ res, get_set sets name = some res) ∧
    (∀ (sets : List (String × SetVal)) (fuel : Nat) (name : String) (visited : List String),
        name ∈ visited →
        setRun sets (fuel + 1) (SetQ.resolve name visited) = some (some [], visited)) := by
  refine ⟨fun sets name => setRun_top_isSome sets name, ?_, ?_⟩
  · intro sets name sv hlk
    have hS : setFuel sets = (maxIncl sets + 2) * (sets.length + 1) + 1 := rfl
    cases hr : setRun sets (setFuel sets) (SetQ.resolve name []) with
    | none =>
      have hsome := setRun_top_isSome sets name
      rw [hr] at hsome
      cases hsome
    | some out =>
      obtain ⟨r, v⟩ := out
      have hr2 := hr
      rw [hS] at hr2
      simp only [setRun] at hr2
      rw [if_neg (List.not_mem_nil name), hlk] at hr2
      cases sv with
      | legacy l =>
        cases hr2
        refine ⟨l, ?_⟩
        unfold get_set
        rw [hr]
      | obj d servers includes =>
        obtain ⟨t, ht⟩ :=
          setRun_fold_shape sets _ includes servers [name] (r, v) hr2
        refine ⟨servers ++ t, ?_⟩
        unfold get_set
        rw [hr]
        exact ht
  · intro sets fuel name visited hv
    simp only [setRun]
    rw [if_pos hv]

/-- Witness for C2 at a concrete two-Set include cycle,
`a` includes `b` and `b` includes `a`. -/
theorem get_set_cycle_safe_witness :
    lookupSet cycleSets "a" = some (SetVal.obj "" ["X"] ["b"]) ∧
    (∃ res, get_set cycleSets "a" = some res) ∧
    ("a" ∈ ["a", "b"]) ∧
    setRun cycleSets (0 + 1) (SetQ.resolve "a" ["a", "b"]) = some (some [], ["a", "b"]) :=
  ⟨by decide,
   get_set_cycle_safe.2.1 cycleSets "a" (SetVal.obj "" ["X"] ["b"]) (by decide),
   by decide,
   get_set_cycle_safe.2.2 cycleSets 0 "a" ["a", "b"] (by decide)⟩

/-- Claim C3 counterexample: `get_set` on a Set whose stored direct servers
list is `["A", "A"]` returns `["A", "A"]` — the resolved list is not
duplicate-free, refuting "in first-seen order with duplicates removed" read
as a guarantee over every defined Set. -/
theorem get_set_duplicate_counterexample :
    get_set dupSets "x" = some ["A", "A"] ∧ ¬ (["A", "A"] : List String).Nodup := by
  exact ⟨by decide, by decide⟩

/-- Claim C3 (amended): for an object-form Set, `get_set` returns the stored
direct `servers` verbatim (duplicates already present there survive),
followed by members contributed by included Sets, each appended only when
not already present — so the result is duplicate-free whenever the direct
list is, every member originates from some stored Set, and Scenario C
resolves travel to `[A, B, C]` with `B` not duplicated. -/
theorem get_set_merge_amended (sets : List (String × SetVal)) (name d : String)
    (servers includes : List String) (res : List String)
    (hlk : lookupSet sets name = some (SetVal.obj d servers includes))
    (hres : get_set sets name = some res) :
    ((∃ t, res = servers ++ t) ∧ (servers.Nodup → res.Nodup) ∧
      (∀ x, x ∈ res → x ∈ servers ∨ inStored sets x)) ∧
    get_set travelSets "travel" = some ["A", "B", "C"] := by
  obtain ⟨v, hr⟩ := get_set_eq_some sets name res hres
  have hS : setFuel sets = (maxIncl sets + 2) * (sets.length + 1) + 1 := rfl
  rw [hS] at hr
  simp only [setRun] at hr
  rw [if_neg (List.not_mem_nil name), hlk] at hr
  refine ⟨⟨?_, ?_, ?_⟩, by decide⟩
  · obtain ⟨t, ht⟩ :=
      setRun_fold_shape sets _ includes servers [name] (some res, v) hr
    exact ⟨t, Option.some.inj ht⟩
  · intro hnd
    exact setRun_fold_nodup sets _ includes servers [name] (some res, v) hr hnd res rfl
  · intro x hx
    have h2 :=
      setRun_sound sets _ (SetQ.fold includes servers [name]) (some res, v) hr res rfl x hx
    simpa [qAcc] using h2

/-- Witness for the amended C3 at Scenario C itself. -/
theorem get_set_merge_amended_witness :
    lookupSet travelSets "travel" = some (SetVal.obj "" ["A", "B"] ["local"]) ∧
    get_set travelSets "travel" = some ["A", "B", "C"] ∧
    (∃ t, ["A", "B", "C"] = ["A", "B"] ++ t) :=
  ⟨by decide, by decide,
   ((get_set_merge_amended travelSets "travel" "" ["A", "B"] ["local"] ["A", "B", "C"]
      (by decide) (by decide)).1).1⟩

/-- Claim C4 counterexample: with Set `g` stored as `["A", "A"]`,
`remove_server "A"` returns true yet `list.remove` purges only the first
occurrence, so the subsequently resolved membership of `g` still contains
`"A"`. -/
theorem remove_server_duplicate_counterexample :
    (remove_server regDupA "A").1 = true ∧
    get_set (remove_server regDupA "A").2.sets "g" = some ["A"] ∧
    "A" ∈ (["A"] : List String) :=
  ⟨by decide, by decide, by decide⟩

/-- Claim C4 (amended): `remove_server` erases one occurrence of the name
from each Set's stored servers list; provided no Set stores the name more
than once, the name is absent from every stored list afterwards and hence
excluded from every subsequently resolved Set membership until re-added. -/
theorem remove_server_purges_amended (reg : Registry) (name : String)
    (hret : (remove_server reg name).1 = true)
    (hcount : ∀ p, p ∈ reg.sets → (storedServers p.2).count name ≤ 1) :
    (∀ p, p ∈ (remove_server reg name).2.sets → name ∉ storedServers p.2) ∧
    (∀ (setName : String) (res : List String),
        get_set (remove_server reg name).2.sets setName = some res → name ∉ res) := by
  by_cases hc : (reg.servers.find? (fun p => p.1 == name)).isSome = true
  case neg =>
    exfalso
    unfold remove_server at hret
    rw [if_neg hc] at hret
    cases hret
  case pos =>
    have hsets : (remove_server reg name).2.sets =
        reg.sets.map (fun p => (p.1, purgeName name p.2)) := by
      unfold remove_server
      rw [if_pos hc]
    have habs : ∀ p, p ∈ (remove_server reg name).2.sets → name ∉ storedServers p.2 := by
      intro p hp
      rw [hsets] at hp
      obtain ⟨p0, hp0, hpeq⟩ := List.mem_map.mp hp
      subst hpeq
      rw [storedServers_purge]
      have hcnt := hcount p0 hp0
      have h0 : ((storedServers p0.2).erase name).count name = 0 := by
        rw [List.count_erase_self]
        omega
      exact List.count_eq_zero.mp h0
    refine ⟨habs, ?_⟩
    intro setName res hres hmem
    obtain ⟨v, hr⟩ := get_set_eq_some _ setName res hres
    have h2 := setRun_sound _ _ (SetQ.resolve setName []) (some res, v) hr res rfl name hmem
    rcases h2 with h2 | h2
    · simp [qAcc] at h2
    · obtain ⟨p, hp, hmem2⟩ := h2
      exact habs p hp hmem2

/-- Witness for the amended C4 on a registry whose Sets list `A` at most
once, including through an include chain. -/
theorem remove_server_purges_amended_witness :
    (remove_server regCleanA "A").1 = true ∧
    (∀ p, p ∈ regCleanA.sets → (storedServers p.2).count "A" ≤ 1) ∧
    (∀ (setName : String) (res : List String),
        get_set (remove_server regCleanA "A").2.sets setName = some res → "A" ∉ res) :=
  ⟨by decide, by decide,
   (remove_server_purges_amended regCleanA "A" (by decide) (by decide)).2⟩

/-- Claim C1: an execute call naming a server with no live session fails
with the correct one of the two errors — "is not connected" plus a connect
suggestion when the server is configured in the Registry, "not configured"
when it is unknown — on both dispatcher paths, and never delegates to the
bound client's call_tool (and neither source function contains any connect
call, so no implicit connect is performed). -/
theorem execute_refuses_without_live_session {V : Type} (env : ExecEnv V)
    (serverName actionName : String) (p q b : ParamVal V)
    (hna : serverName ∉ env.active) :
    ((get_server env.registry serverName).isSome = true →
        execute_action env serverName actionName p q b =
          ExecOut.errDict [notConnectedMsg serverName, connectSuggestion serverName] ∧
        execute_tool_action env serverName actionName p q b =
          ExecOut.errDict [notConnectedMsg serverName, connectSuggestion serverName]) ∧
    (get_server env.registry serverName = none →
        execute_action env serverName actionName p q b =
          ExecOut.errDict [notConfiguredMsg serverName] ∧
        execute_tool_action env serverName actionName p q b =
          ExecOut.errDict [notConfiguredMsg serverName]) ∧
    (∀ (a : String) (ps : List (String × V)),
        execute_action env serverName actionName p q b ≠ ExecOut.call a ps ∧
        execute_tool_action env serverName actionName p q b ≠ ExecOut.call a ps) := by
  unfold execute_action execute_tool_action
  rw [if_neg hna, if_neg hna]
  cases hg : get_server env.registry serverName with
  | none =>
    refine ⟨?_, ?_, ?_⟩
    · intro hs; simp at hs
    · intro _; exact ⟨rfl, rfl⟩
    · intro a ps; exact ⟨fun h => ExecOut.noConfusion h, fun h => ExecOut.noConfusion h⟩
  | some c =>
    refine ⟨?_, ?_, ?_⟩
    · intro _; exact ⟨rfl, rfl⟩
    · intro hn; exact Option.noConfusion hn
    · intro a ps; exact ⟨fun h => ExecOut.noConfusion h, fun h => ExecOut.noConfusion h⟩

/-- Witness for C1: configured `weather`, no live session. -/
theorem execute_refuses_without_live_session_witness :
    ("weather" ∉ envNotConn.active) ∧
    (get_server envNotConn.registry "weather").isSome = true ∧
    execute_action envNotConn "weather" "get_forecast"
        ParamVal.pnone ParamVal.pnone ParamVal.pnone =
      ExecOut.errDict [notConnectedMsg "weather", connectSuggestion "weather"] :=
  ⟨by decide, by decide,
   ((execute_refuses_without_live_session envNotConn "weather" "get_forecast"
      ParamVal.pnone ParamVal.pnone ParamVal.pnone (by decide)).1 (by decide)).1⟩

/-- Claim C6 counterexample: executing against configured-but-unconnected
`weather` before any connect returns the dict with fields `error` and
`suggestion` only — WITHOUT the `status: "error"` marker that the claim's
"uniform error envelope" requires — on both dispatcher paths. -/
theorem execute_envelope_missing_status :
    execute_action envNotConn "weather" "x" ParamVal.pnone ParamVal.pnone ParamVal.pnone =
      ExecOut.errDict [notConnectedMsg "weather", connectSuggestion "weather"] ∧
    execute_tool_action envNotConn "weather" "x" ParamVal.pnone ParamVal.pnone ParamVal.pnone =
      ExecOut.errDict [notConnectedMsg "weather", connectSuggestion "weather"] ∧
    "status" ∉ [notConnectedMsg "weather", connectSuggestion "weather"].map Prod.fst ∧
    (notConnectedMsg "weather").2 = "Server 'weather' is not connected" :=
  ⟨by decide, by decide, by decide, by decide⟩

/-- Claim C6 (amended): executing against a configured server before any
connect fails with exactly `error = "Server '<name>' is not connected"` and
a `suggestion` telling the caller to connect, but the returned object lacks
the `status: "error"` field of the uniform envelope (the early return at
tools.py lines 531-534 / treeshell_functions.py lines 130-133 does not use
`_build_error_response`). -/
theorem execute_not_connected_envelope {V : Type} (env : ExecEnv V)
    (serverName actionName : String) (p q b : ParamVal V)
    (hna : serverName ∉ env.active)
    (hcfg : (get_server env.registry serverName).isSome = true) :
    execute_action env serverName actionName p q b =
      ExecOut.errDict [notConnectedMsg serverName, connectSuggestion serverName] ∧
    execute_tool_action env serverName actionName p q b =
      ExecOut.errDict [notConnectedMsg serverName, connectSuggestion serverName] ∧
    (notConnectedMsg serverName).1 = "error" ∧
    (notConnectedMsg serverName).2 = "Server '" ++ serverName ++ "' is not connected" ∧
    (connectSuggestion serverName).1 = "suggestion" ∧
    "status" ∉ [notConnectedMsg serverName, connectSuggestion serverName].map Prod.fst := by
  unfold execute_action execute_tool_action
  rw [if_neg hna, if_neg hna]
  cases hg : get_server env.registry serverName with
  | none => rw [hg] at hcfg; simp at hcfg
  | some c =>
    refine ⟨rfl, rfl, rfl, rfl, rfl, ?_⟩
    simp only [notConnectedMsg, connectSuggestion, List.map_cons, List.map_nil]
    decide

/-- Witness for the amended C6. -/
theorem execute_not_connected_envelope_witness :
    ("weather" ∉ envNotConn.active) ∧
    (get_server envNotConn.registry "weather").isSome = true ∧
    execute_tool_action envNotConn "weather" "x" ParamVal.pnone ParamVal.pnone ParamVal.pnone =
      ExecOut.errDict [notConnectedMsg "weather", connectSuggestion "weather"] :=
  ⟨by decide, by decide,
   (execute_not_connected_envelope envNotConn "weather" "x" ParamVal.pnone ParamVal.pnone
      ParamVal.pnone (by decide) (by decide)).2.1⟩

/-- Claim C7: on a connected server, a parameter block supplied as text that
fails to parse as JSON aborts the call with an error identifying that block
by name (the first failing block, in path/query/body order), the remote
call_tool is never issued, and when every block is accepted the parsed
key-value pairs are merged into one parameter object that is passed to
call_tool — on both dispatcher paths. -/
theorem execute_param_parse_gate {V : Type} (env : ExecEnv V)
    (serverName actionName : String) (p q b : ParamVal V)
    (hin : serverName ∈ env.active) (hconn : env.isConn serverName = true)
    (hsn : ¬serverName = "") (han : ¬actionName = "") :
    (∀ s, p = ParamVal.pstr s → ¬(s = "" ∨ s = emptyObjStr) → env.parse s = JsonOut.jerr →
        execute_action env serverName actionName p q b = invalidJsonTS env "path_params" s ∧
        execute_tool_action env serverName actionName p q b =
          invalidJsonTool env "path_params" s ∧
        ∀ (a : String) (ps : List (String × V)),
          execute_action env serverName actionName p q b ≠ ExecOut.call a ps ∧
          execute_tool_action env serverName actionName p q b ≠ ExecOut.call a ps) ∧
    (∀ s, blockOk env p → q = ParamVal.pstr s → ¬(s = "" ∨ s = emptyObjStr) →
        env.parse s = JsonOut.jerr →
        execute_action env serverName actionName p q b = invalidJsonTS env "query_params" s ∧
        execute_tool_action env serverName actionName p q b =
          invalidJsonTool env "query_params" s ∧
        ∀ (a : String) (ps : List (String × V)),
          execute_action env serverName actionName p q b ≠ ExecOut.call a ps ∧
          execute_tool_action env serverName actionName p q b ≠ ExecOut.call a ps) ∧
    (∀ s, blockOk env p → blockOk env q → b = ParamVal.pstr s →
        ¬(s = "" ∨ s = emptyObjStr) → env.parse s = JsonOut.jerr →
        execute_action env serverName actionName p q b = invalidJsonTS env "body_schema" s ∧
        execute_tool_action env serverName actionName p q b =
          invalidJsonTool env "body_schema" s ∧
        ∀ (a : String) (ps : List (String × V)),
          execute_action env serverName actionName p q b ≠ ExecOut.call a ps ∧
          execute_tool_action env serverName actionName p q b ≠ ExecOut.call a ps) ∧
    (blockOk env p → blockOk env q → blockOk env b →
        execute_action env serverName actionName p q b =
          ExecOut.call actionName
            (dictUpdate (dictUpdate (dictUpdate [] (blockPairs env p)) (blockPairs env q))
              (blockPairs env b)) ∧
        execute_tool_action env serverName actionName p q b =
          ExecOut.call actionName
            (dictUpdate (dictUpdate (dictUpdate [] (blockPairs env p)) (blockPairs env q))
              (blockPairs env b))) := by
  have hTS : execute_action env serverName actionName p q b =
      (match parseBlocks env (blocksOf p q b) [] with
       | Except.error (PErr.badJson bn s) => invalidJsonTS env bn s
       | Except.error (PErr.updTypeErr s) => execFailedTS env s
       | Except.ok ps => ExecOut.call actionName ps) := by
    unfold execute_action
    rw [if_pos hin, if_pos hconn]
  have hTool : execute_tool_action env serverName actionName p q b =
      (match parseBlocks env (blocksOf p q b) [] with
       | Except.error (PErr.badJson bn s) => invalidJsonTool env bn s
       | Except.error (PErr.updTypeErr s) => internalErrTool env serverName actionName s
       | Except.ok ps => ExecOut.call actionName ps) := by
    unfold execute_tool_action
    rw [if_pos hin, if_neg (not_or.mpr ⟨hsn, han⟩), if_pos hconn]
  refine ⟨?_, ?_, ?_, ?_⟩
  · intro s hps hno hperr
    have hpb : parseBlocks env (blocksOf p q b) [] =
        Except.error (PErr.badJson "path_params" s) := by
      subst hps
      unfold blocksOf
      exact parseBlocks_bad_head env "path_params" s hno hperr _ _
    rw [hTS, hTool, hpb]
    exact ⟨rfl, rfl, fun a ps =>
      ⟨fun h => ExecOut.noConfusion h, fun h => ExecOut.noConfusion h⟩⟩
  · intro s hokp hqs hno hperr
    have hpb : parseBlocks env (blocksOf p q b) [] =
        Except.error (PErr.badJson "query_params" s) := by
      subst hqs
      unfold blocksOf
      rw [parseBlocks_ok_head env "path_params" p hokp]
      exact parseBlocks_bad_head env "query_params" s hno hperr _ _
    rw [hTS, hTool, hpb]
    exact ⟨rfl, rfl, fun a ps =>
      ⟨fun h => ExecOut.noConfusion h, fun h => ExecOut.noConfusion h⟩⟩
  · intro s hokp hokq hbs hno hperr
    have hpb : parseBlocks env (blocksOf p q b) [] =
        Except.error (PErr.badJson "body_schema" s) := by
      subst hbs
      unfold blocksOf
      rw [parseBlocks_ok_head env "path_params" p hokp,
        parseBlocks_ok_head env "query_params" q hokq]
      exact parseBlocks_bad_head env "body_schema" s hno hperr _ _
    rw [hTS, hTool, hpb]
    exact ⟨rfl, rfl, fun a ps =>
      ⟨fun h => ExecOut.noConfusion h, fun h => ExecOut.noConfusion h⟩⟩
  · intro hokp hokq hokb
    rw [hTS, hTool, parseBlocks_blocks_ok env p q b hokp hokq hokb]
    exact ⟨rfl, rfl⟩

/-- Witness for C7: `"bad"` fails to parse (error names path_params, no
delegation); `"good"` parses to an object and the call is delegated with the
merged parameters. -/
theorem execute_param_parse_gate_witness :
    ("svc" ∈ envConn.active) ∧
    envConn.isConn "svc" = true ∧
    envConn.parse "bad" = JsonOut.jerr ∧
    execute_action envConn "svc" "act" (ParamVal.pstr "bad") ParamVal.pnone ParamVal.pnone =
      invalidJsonTS envConn "path_params" "bad" ∧
    execute_tool_action envConn "svc" "act" ParamVal.pnone ParamVal.pnone
        (ParamVal.pstr "good") =
      ExecOut.call "act"
        (dictUpdate (dictUpdate (dictUpdate []
          (blockPairs envConn (ParamVal.pnone : ParamVal Nat)))
          (blockPairs envConn ParamVal.pnone))
          (blockPairs envConn (ParamVal.pstr "good"))) := by
  refine ⟨by decide, by decide, by decide, ?_, ?_⟩
  · exact ((execute_param_parse_gate envConn "svc" "act" (ParamVal.pstr "bad")
      ParamVal.pnone ParamVal.pnone (by decide) (by decide) (by decide) (by decide)).1
      "bad" rfl (by decide) (by decide)).1
  · exact ((execute_param_parse_gate envConn "svc" "act" ParamVal.pnone ParamVal.pnone
      (ParamVal.pstr "good") (by decide) (by decide) (by decide) (by decide)).2.2.2
      trivial trivial
      (Or.inr (Or.inr ⟨[("city", 1)], by decide⟩))).2

/-- Claim C8 (code bug): for configured-but-not-connected `weather`,
get_action_details does not report the distinguishing error: the KeyError
handler's lookup `[s.name for s in client_manager.server_list.servers]`
iterates the servers dict's string keys and raises AttributeError, which the
sibling `except Exception` of the same try does not catch — the
configured-but-not-connected report is unreachable whenever the registry is
non-empty, and the fault escapes the function. -/
theorem get_action_details_attribute_fault :
    get_action_details gadEnvW "weather" "x" =
      GadOut.fault "AttributeError: 'str' object has no attribute 'name'" ∧
    (get_server gadEnvW.registry "weather").isSome = true ∧
    "weather" ∉ gadEnvW.active :=
  ⟨rfl, by decide, by decide⟩

/-- Claim C9: populate-catalog only processes enabled servers whose catalog
entry is empty (every connection-manager event concerns such a server),
initiates a connection only for a server not already in the live-session
registry, disconnects only servers that had not been connected before the
call, and every session live before the call remains live afterwards —
for arbitrary connect/list oracles, including per-server failures. -/
theorem populate_catalog_frame (env : PCEnv) (reg : Registry) (st : PCState) :
    (∀ n, n ∈ st.active → n ∈ (populate_catalog env reg st).1.active) ∧
    (∀ e, e ∈ (populate_catalog env reg st).2 →
        ∃ c, c ∈ list_servers reg true ∧ pevName e = c.name ∧
          (get_tools st.catalog c.name).isEmpty = true) ∧
    (∀ n, PEv.connect n ∈ (populate_catalog env reg st).2 → n ∉ st.active) ∧
    (∀ n, PEv.disconnect n ∈ (populate_catalog env reg st).2 → n ∉ st.active) := by
  refine ⟨?_, ?_, ?_, ?_⟩
  · intro n hn
    exact popLoop_active_mono env (toPopulate reg st) st n hn
  · intro e he
    obtain ⟨s, hs, hname⟩ := popLoop_ev env (toPopulate reg st) st e he
    have hs2 := List.mem_filter.mp hs
    exact ⟨s, hs2.1, hname, hs2.2⟩
  · intro n hn
    exact popLoop_connect env (toPopulate reg st) st n hn
  · intro n hn
    exact popLoop_disconnect env (toPopulate reg st) st n hn

/-- Witness for C9: `w` live and cached stays live; `u` (enabled, empty
catalog entry) is indexed. -/
theorem populate_catalog_frame_witness :
    ("w" ∈ pcStW.active) ∧
    ("w" ∈ (populate_catalog pcEnvW pcRegW pcStW).1.active) ∧
    (PEv.catalogWrite "u" ∈ (populate_catalog pcEnvW pcRegW pcStW).2) ∧
    (∃ c, c ∈ list_servers pcRegW true ∧ pevName (PEv.catalogWrite "u") = c.name ∧
        (get_tools pcStW.catalog c.name).isEmpty = true) :=
  ⟨by decide,
   (populate_catalog_frame pcEnvW pcRegW pcStW).1 "w" (by decide),
   by decide,
   (populate_catalog_frame pcEnvW pcRegW pcStW).2.1 (PEv.catalogWrite "u") (by decide)⟩

/-- Claim C10: a parameter block whose value is None, the empty string, or
exactly the string enc-braces is skipped entirely — replacing it by None
leaves the result of either execute path unchanged, for every parser
oracle, so it is never parsed, contributes no keys and can never produce a
malformed-parameters error — and blocks supplied as non-string mappings are
merged directly into one parameter object that is passed to call_tool
without any parse. -/
theorem execute_param_skip_and_direct_merge {V : Type} :
    (∀ (env : ExecEnv V) (serverName actionName : String) (p q b v : ParamVal V),
       (v = ParamVal.pnone ∨ v = ParamVal.pstr "" ∨ v = ParamVal.pstr emptyObjStr) →
       ((execute_action env serverName actionName v q b =
           execute_action env serverName actionName ParamVal.pnone q b ∧
         execute_action env serverName actionName p v b =
           execute_action env serverName actionName p ParamVal.pnone b ∧
         execute_action env serverName actionName p q v =
           execute_action env serverName actionName p q ParamVal.pnone) ∧
        (execute_tool_action env serverName actionName v q b =
           execute_tool_action env serverName actionName ParamVal.pnone q b ∧
         execute_tool_action env serverName actionName p v b =
           execute_tool_action env serverName actionName p ParamVal.pnone b ∧
         execute_tool_action env serverName actionName p q v =
           execute_tool_action env serverName actionName p q ParamVal.pnone))) ∧
    (∀ (env : ExecEnv V) (serverName actionName : String)
       (m1 m2 m3 : List (String × V)),
        serverName ∈ env.active → env.isConn serverName = true →
        ¬serverName = "" → ¬actionName = "" →
        execute_action env serverName actionName
            (ParamVal.pmap m1) (ParamVal.pmap m2) (ParamVal.pmap m3) =
          ExecOut.call actionName (dictUpdate (dictUpdate (dictUpdate [] m1) m2) m3) ∧
        execute_tool_action env serverName actionName
            (ParamVal.pmap m1) (ParamVal.pmap m2) (ParamVal.pmap m3) =
          ExecOut.call actionName (dictUpdate (dictUpdate (dictUpdate [] m1) m2) m3)) := by
  constructor
  · intro env serverName actionName p q b v hv
    have h1 : parseBlocks env (blocksOf v q b) [] =
        parseBlocks env (blocksOf ParamVal.pnone q b) [] := by
      have h := parseBlocks_skip_at env "path_params" v hv []
        [("query_params", q), ("body_schema", b)] []
      simpa [blocksOf] using h
    have h2 : parseBlocks env (blocksOf p v b) [] =
        parseBlocks env (blocksOf p ParamVal.pnone b) [] := by
      have h := parseBlocks_skip_at env "query_params" v hv
        [("path_params", p)] [("body_schema", b)] []
      simpa [blocksOf] using h
    have h3 : parseBlocks env (blocksOf p q v) [] =
        parseBlocks env (blocksOf p q ParamVal.pnone) [] := by
      have h := parseBlocks_skip_at env "body_schema" v hv
        [("path_params", p), ("query_params", q)] [] []
      simpa [blocksOf] using h
    exact ⟨⟨execute_action_parse_congr env serverName actionName _ _ _ _ _ _ h1,
            execute_action_parse_congr env serverName actionName _ _ _ _ _ _ h2,
            execute_action_parse_congr env serverName actionName _ _ _ _ _ _ h3⟩,
           ⟨execute_tool_action_parse_congr env serverName actionName _ _ _ _ _ _ h1,
            execute_tool_action_parse_congr env serverName actionName _ _ _ _ _ _ h2,
            execute_tool_action_parse_congr env serverName actionName _ _ _ _ _ _ h3⟩⟩
  · intro env serverName actionName m1 m2 m3 hin hconn hsn han
    have hok : parseBlocks env
        (blocksOf (ParamVal.pmap m1) (ParamVal.pmap m2) (ParamVal.pmap m3)) [] =
        Except.ok (dictUpdate (dictUpdate (dictUpdate [] m1) m2) m3) :=
      parseBlocks_blocks_ok env (ParamVal.pmap m1) (ParamVal.pmap m2) (ParamVal.pmap m3)
        trivial trivial trivial
    constructor
    · unfold execute_action
      rw [if_pos hin, if_pos hconn, hok]
    · unfold execute_tool_action
      rw [if_pos hin, if_neg (not_or.mpr ⟨hsn, han⟩), if_pos hconn, hok]

/-- Witness for C10: skipping the literal enc-braces body, and direct merge
of mapping-valued blocks (with an empty middle mapping). -/
theorem execute_param_skip_and_direct_merge_witness :
    ((ParamVal.pstr emptyObjStr = (ParamVal.pnone : ParamVal Nat) ∨
      ParamVal.pstr emptyObjStr = (ParamVal.pstr "" : ParamVal Nat) ∨
      ParamVal.pstr emptyObjStr = (ParamVal.pstr emptyObjStr : ParamVal Nat))) ∧
    execute_action envConn "svc" "act" ParamVal.pnone ParamVal.pnone
        (ParamVal.pstr emptyObjStr) =
      execute_action envConn "svc" "act" ParamVal.pnone ParamVal.pnone ParamVal.pnone ∧
    execute_action envConn "svc" "act" (ParamVal.pmap [("k", 5)]) (ParamVal.pmap [])
        (ParamVal.pmap [("k", 7)]) =
      ExecOut.call "act" (dictUpdate (dictUpdate (dictUpdate [] [("k", 5)]) []) [("k", 7)]) :=
  ⟨Or.inr (Or.inr rfl),
   ((execute_param_skip_and_direct_merge.1 envConn "svc" "act"
      ParamVal.pnone ParamVal.pnone ParamVal.pnone (ParamVal.pstr emptyObjStr)
      (Or.inr (Or.inr rfl))).1).2.2,
   (execute_param_skip_and_direct_merge.2 envConn "svc" "act"
      [("k", 5)] [] [("k", 7)] (by decide) (by decide) (by decide) (by decide)).1⟩

end StrataSpec
